import Mathlib

/-!
Verification of `src/util/ForeignFifoBuffer.hxx` (MPD), a borrowed-memory
FIFO staging buffer: a view over a caller-supplied contiguous block of
`capacity` elements with cursors `head` (start of live data) and `tail`
(one past the last live element), compacting (`Shift`) the live region to
the front of the block when space runs out at the tail.

The state is embedded shallowly: the borrowed `T *data` handle becomes
`Option (List T)` (`none` models a null pointer, `some buf` a bound block
whose elements are `buf`); the `size_type` cursors become `Nat`.  Each
public method of the class becomes a Lean function of the same name that
returns the updated state (and the method's return value where it has one).
`std::move` / `std::copy_n` of element ranges become list operations.
-/

namespace MPDFifo

/-- The state of a `ForeignFifoBuffer<T>`: cursors `head`, `tail`,
`capacity` and the borrowed data handle (`none` = null pointer). -/
structure ForeignFifoBuffer (T : Type) where
  head : Nat
  tail : Nat
  capacity : Nat
  data : Option (List T)
deriving Repr, DecidableEq

variable {T : Type}

/-- Overlay the list `xs` onto `buf` starting at position `pos`,
leaving everything else unchanged.  This models writing the element range
`[pos, pos + xs.length)` of a block through a pointer. -/
def setRange (buf : List T) (pos : Nat) (xs : List T) : List T :=
  buf.take pos ++ xs ++ buf.drop (pos + xs.length)

/-- Constructor `ForeignFifoBuffer(std::nullptr_t)`: the null state. -/
def ofNullptr (T : Type) : ForeignFifoBuffer T :=
  { head := 0, tail := 0, capacity := 0, data := none }

/-- Constructor `ForeignFifoBuffer(T *_data, size_type _capacity)`: bind to a
caller-supplied handle (possibly null: the constructor has no assertion). -/
def ofBuffer (d : Option (List T)) (cap : Nat) : ForeignFifoBuffer T :=
  { head := 0, tail := 0, capacity := cap, data := d }

/-- Method `IsNull()`: whether the data handle is null. -/
def IsNull (s : ForeignFifoBuffer T) : Bool :=
  s.data.isNone

/-- Method `IsDefined()`: negation of `IsNull()`. -/
def IsDefined (s : ForeignFifoBuffer T) : Bool :=
  !(IsNull s)

/-- Method `GetCapacity()`. -/
def GetCapacity (s : ForeignFifoBuffer T) : Nat :=
  s.capacity

/-- Method `SetNull()`: reset to the null state. -/
def SetNull (_s : ForeignFifoBuffer T) : ForeignFifoBuffer T :=
  { head := 0, tail := 0, capacity := 0, data := none }

/-- The asserted precondition of `SetBuffer`:
`assert(_data != nullptr); assert(_capacity > 0);`. -/
def SetBufferPre (d : Option (List T)) (cap : Nat) : Prop :=
  d ≠ none ∧ 0 < cap

/-- Method `SetBuffer(_data, _capacity)`: rebind, resetting both cursors. -/
def SetBuffer (_s : ForeignFifoBuffer T) (d : Option (List T)) (cap : Nat) :
    ForeignFifoBuffer T :=
  { head := 0, tail := 0, capacity := cap, data := d }

/-- The asserted precondition of `MoveBuffer`:
`assert(new_capacity >= tail - head);`. -/
def MoveBufferPre (s : ForeignFifoBuffer T) (newCap : Nat) : Prop :=
  s.tail - s.head ≤ newCap

/-- Method `MoveBuffer(new_data, new_capacity)`: relocate the live range
`[head, tail)` to the front of the new block
(`std::move(data + head, data + tail, new_data)`), rebind, and reset the
cursors to `head = 0`, `tail = old tail - old head`.  The new handle may
itself be null — the method only asserts the capacity condition — in
which case the view ends up with a null handle (writing live elements
through a null handle would be undefined; with no live elements the
`std::move` writes nothing). -/
def MoveBuffer (s : ForeignFifoBuffer T) (newData : Option (List T))
    (newCap : Nat) : ForeignFifoBuffer T :=
  let buf := s.data.getD []
  let live := (buf.drop s.head).take (s.tail - s.head)
  { head := 0,
    tail := s.tail - s.head,
    capacity := newCap,
    data := newData.map (fun nd => setRange nd 0 live) }

/-- Method `Clear()`: reset both cursors, keeping binding and capacity. -/
def Clear (s : ForeignFifoBuffer T) : ForeignFifoBuffer T :=
  { s with head := 0, tail := 0 }

/-- Method `IsEmpty()`: `head == tail`. -/
def IsEmpty (s : ForeignFifoBuffer T) : Bool :=
  s.head == s.tail

/-- Method `IsFull()`: `head == 0 && tail == capacity`. -/
def IsFull (s : ForeignFifoBuffer T) : Bool :=
  s.head == 0 && s.tail == s.capacity

/-- Method `GetAvailable()`: `tail - head`, the live element count. -/
def GetAvailable (s : ForeignFifoBuffer T) : Nat :=
  s.tail - s.head

/-- The protected `Shift()`: no-op when `head == 0`; otherwise
`std::move(data + head, data + tail, data)` (moving the live range to the
front of the block), then `tail -= head; head = 0;`. -/
def Shift (s : ForeignFifoBuffer T) : ForeignFifoBuffer T :=
  if s.head = 0 then s
  else
    { s with
      data := s.data.map (fun buf =>
        setRange buf 0 ((buf.drop s.head).take (s.tail - s.head))),
      tail := s.tail - s.head,
      head := 0 }

/-- Method `Write()`: `Shift()`, then return the writable range
`(data + tail, capacity - tail)` — modelled as the shifted state together
with the range's start index and length. -/
def Write (s : ForeignFifoBuffer T) : ForeignFifoBuffer T × Nat × Nat :=
  let s' := Shift s
  (s', s'.tail, s'.capacity - s'.tail)

/-- The modulus of the unsigned 64-bit `size_t` arithmetic behind
`size_type`: sums of cursors and counts wrap modulo `2 ^ 64`. -/
def sizeModulus : Nat := 2 ^ 64

/-- Method `WantWrite(n)`: true with no state change when
`tail + n <= capacity`; false when `(tail - head) + n > capacity`;
otherwise `Shift()` and true.  The two sums are `size_t` additions and
wrap modulo `2 ^ 64` (the subtraction `tail - head` never wraps while the
cursor invariant `head <= tail` holds). -/
def WantWrite (s : ForeignFifoBuffer T) (n : Nat) : ForeignFifoBuffer T × Bool :=
  if (s.tail + n) % sizeModulus ≤ s.capacity then (s, true)
  else
    let in_use := s.tail - s.head
    let required_capacity := (in_use + n) % sizeModulus
    if s.capacity < required_capacity then (s, false)
    else (Shift s, true)

/-- The asserted precondition of `Append`: `assert(tail <= capacity);
assert(n <= capacity); assert(tail + n <= capacity);`. -/
def AppendPre (s : ForeignFifoBuffer T) (n : Nat) : Prop :=
  s.tail ≤ s.capacity ∧ n ≤ s.capacity ∧ s.tail + n ≤ s.capacity

/-- Method `Append(n)`: `tail += n`. -/
def Append (s : ForeignFifoBuffer T) (n : Nat) : ForeignFifoBuffer T :=
  { s with tail := s.tail + n }

/-- The element sequence of the range returned by `Read()`:
`(data + head, tail - head)`, i.e. the live region `[head, tail)`. -/
def liveData (s : ForeignFifoBuffer T) : List T :=
  ((s.data.getD []).drop s.head).take (s.tail - s.head)

/-- The asserted precondition of `Consume`: `assert(tail <= capacity);
assert(head <= tail); assert(n <= tail); assert(head + n <= tail);`. -/
def ConsumePre (s : ForeignFifoBuffer T) (n : Nat) : Prop :=
  s.tail ≤ s.capacity ∧ s.head ≤ s.tail ∧ n ≤ s.tail ∧ s.head + n ≤ s.tail

/-- Method `Consume(n)`: `head += n`. -/
def Consume (s : ForeignFifoBuffer T) (n : Nat) : ForeignFifoBuffer T :=
  { s with head := s.head + n }

/-- Method `Read(p, n)`: clamp `n` to the size of the live range, copy that many
elements out from `head` (`std::copy_n`), `Consume` them, and return the
count — modelled as (copied elements, returned count, updated state). -/
def ReadCopy (s : ForeignFifoBuffer T) (n : Nat) :
    List T × Nat × ForeignFifoBuffer T :=
  let sz := s.tail - s.head
  let m := if sz < n then sz else n
  (((s.data.getD []).drop s.head).take m, m, Consume s m)

/-- The move constructor `ForeignFifoBuffer(ForeignFifoBuffer &&src)`:
the destination copies all four fields, then `src.SetNull()` — modelled as
the pair (destination, source after the move). -/
def moveFrom (s : ForeignFifoBuffer T) :
    ForeignFifoBuffer T × ForeignFifoBuffer T :=
  ({ head := s.head, tail := s.tail, capacity := s.capacity, data := s.data },
   SetNull s)

/-- Move assignment `operator=(ForeignFifoBuffer &&src)` when `src` aliases `*this`
(self-move): each field assignment reads and writes the same object, and
then `src.SetNull()` nulls that same object. -/
def moveAssignSelf (s : ForeignFifoBuffer T) : ForeignFifoBuffer T :=
  let s1 := { s with head := s.head }
  let s2 := { s1 with tail := s1.tail }
  let s3 := { s2 with capacity := s2.capacity }
  let s4 := { s3 with data := s3.data }
  SetNull s4

/-- The caller-side write protocol around `Write()` / `Append`:
call `Write()` (which shifts), write `xs` into the returned range starting
at its beginning, then `Append(xs.length)`. -/
def writeAppend (s : ForeignFifoBuffer T) (xs : List T) : ForeignFifoBuffer T :=
  let s' := (Write s).1
  Append
    { s' with data := s'.data.map (fun buf => setRange buf s'.tail xs) }
    xs.length

/-- One caller operation on the buffer, for whole-trace statements. -/
inductive FifoOp (T : Type) where
  | write (xs : List T)
  | readCopy (n : Nat)
  | consume (n : Nat)
deriving Repr, DecidableEq

/-- One step: `write xs` follows the `Write()`/`Append` protocol and
observes nothing; `readCopy n` is `Read(p, n)` and observes the copied
elements; `consume n` reads the first `n` elements of the range returned
by `Read()` and then calls `Consume(n)`. -/
def stepOp (s : ForeignFifoBuffer T) : FifoOp T → ForeignFifoBuffer T × List T
  | .write xs => (writeAppend s xs, [])
  | .readCopy n => ((ReadCopy s n).2.2, (ReadCopy s n).1)
  | .consume n => (Consume s n, (liveData s).take n)

/-- Validity of one operation: a write must fit in the range returned by
`Write()` (length `capacity - available` after the shift), and
`consume`/`readCopy` must stay within the available count. -/
def opPre (s : ForeignFifoBuffer T) : FifoOp T → Bool
  | .write xs => decide (xs.length ≤ s.capacity - (s.tail - s.head))
  | .readCopy n => decide (n ≤ s.tail - s.head)
  | .consume n => decide (n ≤ s.tail - s.head)

/-- Run a trace, collecting everything observed through
`Read()` / `Read(p, n)` in order. -/
def runOps (s : ForeignFifoBuffer T) :
    List (FifoOp T) → ForeignFifoBuffer T × List T
  | [] => (s, [])
  | op :: rest =>
      ((runOps (stepOp s op).1 rest).1,
        (stepOp s op).2 ++ (runOps (stepOp s op).1 rest).2)

/-- Validity of a whole trace. -/
def validOps (s : ForeignFifoBuffer T) : List (FifoOp T) → Bool
  | [] => true
  | op :: rest => opPre s op && validOps (stepOp s op).1 rest

/-- The elements written by a trace, in order. -/
def writtenOf : List (FifoOp T) → List T
  | [] => []
  | .write xs :: rest => xs ++ writtenOf rest
  | .readCopy _ :: rest => writtenOf rest
  | .consume _ :: rest => writtenOf rest

/-- A freshly bound buffer over the block `buf`: `head = tail = 0`,
capacity the length of the caller-supplied block. -/
def ofList (buf : List T) : ForeignFifoBuffer T :=
  { head := 0, tail := 0, capacity := buf.length, data := some buf }

/-- The element of the bound block at index `i`, if any. -/
def bufAt (s : ForeignFifoBuffer T) (i : Nat) : Option T :=
  (s.data.getD [])[i]?

/-- The cursor invariant: `head ≤ tail ≤ capacity`. -/
def Inv (s : ForeignFifoBuffer T) : Prop :=
  s.head ≤ s.tail ∧ s.tail ≤ s.capacity

/-- Well-formedness: the cursor invariant plus a bound block that really
has `capacity` elements. -/
def Wf (s : ForeignFifoBuffer T) : Prop :=
  s.head ≤ s.tail ∧ s.tail ≤ s.capacity ∧ s.data.map List.length = some s.capacity

/-- The null-state invariant: a null data handle forces
`head = tail = capacity = 0`. -/
def NullOk (s : ForeignFifoBuffer T) : Prop :=
  s.data = none → s.head = 0 ∧ s.tail = 0 ∧ s.capacity = 0

instance (s : ForeignFifoBuffer T) : Decidable (Inv s) :=
  inferInstanceAs (Decidable (s.head ≤ s.tail ∧ s.tail ≤ s.capacity))

instance [DecidableEq T] (s : ForeignFifoBuffer T) : Decidable (Wf s) :=
  inferInstanceAs (Decidable (s.head ≤ s.tail ∧ s.tail ≤ s.capacity ∧
    s.data.map List.length = some s.capacity))

instance [DecidableEq T] (s : ForeignFifoBuffer T) : Decidable (NullOk s) :=
  inferInstanceAs (Decidable (s.data = none →
    s.head = 0 ∧ s.tail = 0 ∧ s.capacity = 0))

instance [DecidableEq T] (d : Option (List T)) (cap : Nat) :
    Decidable (SetBufferPre d cap) :=
  inferInstanceAs (Decidable (d ≠ none ∧ 0 < cap))

instance (s : ForeignFifoBuffer T) (newCap : Nat) :
    Decidable (MoveBufferPre s newCap) :=
  inferInstanceAs (Decidable (s.tail - s.head ≤ newCap))

instance (s : ForeignFifoBuffer T) (n : Nat) : Decidable (AppendPre s n) :=
  inferInstanceAs (Decidable (s.tail ≤ s.capacity ∧ n ≤ s.capacity ∧
    s.tail + n ≤ s.capacity))

instance (s : ForeignFifoBuffer T) (n : Nat) : Decidable (ConsumePre s n) :=
  inferInstanceAs (Decidable (s.tail ≤ s.capacity ∧ s.head ≤ s.tail ∧
    n ≤ s.tail ∧ s.head + n ≤ s.tail))

/-! ### Basic lemmas about the embedding -/

theorem liveData_eq (s : ForeignFifoBuffer T) :
    liveData s = ((s.data.getD []).drop s.head).take (s.tail - s.head) := rfl

theorem bufAt_eq (s : ForeignFifoBuffer T) (i : Nat) :
    bufAt s i = (s.data.getD [])[i]? := rfl

theorem Wf.exists_buf {s : ForeignFifoBuffer T} (hwf : Wf s) :
    ∃ buf, s.data = some buf ∧ buf.length = s.capacity := by
  obtain ⟨-, -, h⟩ := hwf
  exact Option.map_eq_some'.mp h

theorem liveData_length (s : ForeignFifoBuffer T) (hwf : Wf s) :
    (liveData s).length = s.tail - s.head := by
  obtain ⟨buf, hd, hl⟩ := hwf.exists_buf
  obtain ⟨h1, h2, -⟩ := hwf
  rw [liveData_eq, hd]
  simp only [Option.getD_some, List.length_take, List.length_drop]
  omega

theorem Shift_head (s : ForeignFifoBuffer T) : (Shift s).head = 0 := by
  unfold Shift
  split
  · assumption
  · rfl

theorem Shift_tail (s : ForeignFifoBuffer T) :
    (Shift s).tail = s.tail - s.head := by
  unfold Shift
  split
  · rename_i h
    omega
  · rfl

theorem Shift_capacity (s : ForeignFifoBuffer T) :
    (Shift s).capacity = s.capacity := by
  unfold Shift
  split <;> rfl

theorem Shift_data (s : ForeignFifoBuffer T) (buf : List T)
    (hd : s.data = some buf) (hwf : Wf s) :
    (Shift s).data = some (liveData s ++ buf.drop (s.tail - s.head)) := by
  have hlive : liveData s = (buf.drop s.head).take (s.tail - s.head) := by
    rw [liveData_eq, hd]
    rfl
  have hlen : ((buf.drop s.head).take (s.tail - s.head)).length
      = s.tail - s.head := by
    rw [← hlive]
    exact liveData_length s hwf
  unfold Shift
  split
  · rename_i h
    rw [hd, hlive, h]
    simp [List.take_append_drop]
  · rw [hd, hlive]
    simp only [Option.map_some']
    rw [setRange, hlen]
    simp

theorem Wf_Shift (s : ForeignFifoBuffer T) (hwf : Wf s) : Wf (Shift s) := by
  obtain ⟨buf, hd, hl⟩ := hwf.exists_buf
  have h1 : s.head ≤ s.tail := hwf.1
  have h2 : s.tail ≤ s.capacity := hwf.2.1
  have hlen := liveData_length s hwf
  refine ⟨?_, ?_, ?_⟩
  · rw [Shift_head]
    exact Nat.zero_le _
  · rw [Shift_tail, Shift_capacity]
    omega
  · rw [Shift_data s buf hd hwf, Shift_capacity]
    simp only [Option.map_some', List.length_append, List.length_drop]
    rw [hlen, hl]
    congr 1
    omega

theorem liveData_Shift (s : ForeignFifoBuffer T) (hwf : Wf s) :
    liveData (Shift s) = liveData s := by
  obtain ⟨buf, hd, hl⟩ := hwf.exists_buf
  have hlen := liveData_length s hwf
  rw [liveData_eq (Shift s), Shift_data s buf hd hwf, Shift_head, Shift_tail]
  simp only [Option.getD_some, List.drop_zero, Nat.sub_zero]
  exact List.take_left' hlen

theorem bufAt_Shift (s : ForeignFifoBuffer T) (hwf : Wf s) (i : Nat)
    (hi : s.tail - s.head ≤ i) : bufAt (Shift s) i = bufAt s i := by
  obtain ⟨buf, hd, hl⟩ := hwf.exists_buf
  have hlen := liveData_length s hwf
  rw [bufAt_eq, bufAt_eq, Shift_data s buf hd hwf, hd]
  simp only [Option.getD_some]
  rw [List.getElem?_append_right (by omega), List.getElem?_drop]
  congr 1
  omega

theorem liveData_Consume (s : ForeignFifoBuffer T) (n : Nat) :
    liveData (Consume s n) = (liveData s).drop n := by
  rw [liveData_eq, liveData_eq, List.drop_take, List.drop_drop]
  show ((s.data.getD []).drop (s.head + n)).take (s.tail - (s.head + n)) = _
  congr 1
  omega

theorem Wf_Consume (s : ForeignFifoBuffer T) (n : Nat) (hwf : Wf s)
    (hn : n ≤ s.tail - s.head) : Wf (Consume s n) := by
  obtain ⟨h1, h2, h3⟩ := hwf
  refine ⟨?_, h2, h3⟩
  show s.head + n ≤ s.tail
  omega

theorem ReadCopy_spec (s : ForeignFifoBuffer T) (n : Nat)
    (hn : n ≤ s.tail - s.head) :
    ReadCopy s n = ((liveData s).take n, n, Consume s n) := by
  have hm : (if s.tail - s.head < n then s.tail - s.head else n) = n := by
    rw [if_neg (by omega)]
  simp only [ReadCopy, hm]
  rw [liveData_eq, List.take_take, inf_eq_min, Nat.min_eq_left hn]

theorem writeAppend_head (s : ForeignFifoBuffer T) (xs : List T) :
    (writeAppend s xs).head = (Shift s).head := rfl

theorem writeAppend_tail (s : ForeignFifoBuffer T) (xs : List T) :
    (writeAppend s xs).tail = (Shift s).tail + xs.length := rfl

theorem writeAppend_capacity (s : ForeignFifoBuffer T) (xs : List T) :
    (writeAppend s xs).capacity = (Shift s).capacity := rfl

theorem writeAppend_data (s : ForeignFifoBuffer T) (xs : List T) :
    (writeAppend s xs).data
      = (Shift s).data.map (fun buf => setRange buf (Shift s).tail xs) := rfl

theorem writeAppend_spec (s : ForeignFifoBuffer T) (xs : List T) (hwf : Wf s)
    (hn : xs.length ≤ s.capacity - (s.tail - s.head)) :
    Wf (writeAppend s xs) ∧ liveData (writeAppend s xs) = liveData s ++ xs := by
  obtain ⟨buf, hd, hl⟩ := hwf.exists_buf
  have h1 : s.head ≤ s.tail := hwf.1
  have h2 : s.tail ≤ s.capacity := hwf.2.1
  have hlen := liveData_length s hwf
  have hdata : (writeAppend s xs).data
      = some (setRange (liveData s ++ buf.drop (s.tail - s.head))
          (s.tail - s.head) xs) := by
    rw [writeAppend_data, Shift_data s buf hd hwf, Shift_tail]
    rfl
  have hsr : setRange (liveData s ++ buf.drop (s.tail - s.head))
      (s.tail - s.head) xs
        = (liveData s ++ xs)
          ++ (liveData s ++ buf.drop (s.tail - s.head)).drop
              (s.tail - s.head + xs.length) := by
    rw [setRange, List.take_left' hlen, List.append_assoc]
  have hhead : (writeAppend s xs).head = 0 := by
    rw [writeAppend_head, Shift_head]
  have htail : (writeAppend s xs).tail = (s.tail - s.head) + xs.length := by
    rw [writeAppend_tail, Shift_tail]
  have hcap : (writeAppend s xs).capacity = s.capacity := by
    rw [writeAppend_capacity, Shift_capacity]
  have hlive2 : liveData (writeAppend s xs) = liveData s ++ xs := by
    rw [liveData_eq, hdata, hsr, hhead, htail]
    simp only [Option.getD_some, List.drop_zero, Nat.sub_zero]
    refine List.take_left' ?_
    simp only [List.length_append]
    omega
  refine ⟨⟨?_, ?_, ?_⟩, hlive2⟩
  · rw [hhead]
    exact Nat.zero_le _
  · rw [htail, hcap]
    omega
  · rw [hdata, hsr, hcap]
    simp only [Option.map_some', List.length_append, List.length_drop]
    rw [hlen, hl]
    congr 1
    omega

theorem writtenOf_cons (op : FifoOp T) (rest : List (FifoOp T)) :
    writtenOf (op :: rest) = writtenOf [op] ++ writtenOf rest := by
  cases op <;> simp [writtenOf]

theorem stepOp_spec (s : ForeignFifoBuffer T) (op : FifoOp T) (hwf : Wf s)
    (hpre : opPre s op = true) :
    Wf (stepOp s op).1 ∧
      (stepOp s op).2 ++ liveData (stepOp s op).1
        = liveData s ++ writtenOf [op] := by
  cases op with
  | write xs =>
    have hn : xs.length ≤ s.capacity - (s.tail - s.head) := by
      simpa [opPre] using hpre
    obtain ⟨hwf', hl⟩ := writeAppend_spec s xs hwf hn
    exact ⟨hwf', by simp [stepOp, writtenOf, hl]⟩
  | readCopy n =>
    have hn : n ≤ s.tail - s.head := by
      simpa [opPre] using hpre
    have hr := ReadCopy_spec s n hn
    refine ⟨?_, ?_⟩
    · simp only [stepOp, hr]
      exact Wf_Consume s n hwf hn
    · simp only [stepOp, hr, writtenOf, liveData_Consume, List.append_nil]
      exact List.take_append_drop n (liveData s)
  | consume n =>
    have hn : n ≤ s.tail - s.head := by
      simpa [opPre] using hpre
    refine ⟨Wf_Consume s n hwf hn, ?_⟩
    simp only [stepOp, writtenOf, liveData_Consume, List.append_nil]
    exact List.take_append_drop n (liveData s)

theorem runOps_spec (ops : List (FifoOp T)) (s : ForeignFifoBuffer T)
    (hwf : Wf s) (hv : validOps s ops = true) :
    Wf (runOps s ops).1 ∧
      (runOps s ops).2 ++ liveData (runOps s ops).1
        = liveData s ++ writtenOf ops := by
  induction ops generalizing s with
  | nil => exact ⟨hwf, by simp [runOps, writtenOf]⟩
  | cons op rest ih =>
    have hv' : opPre s op = true ∧ validOps (stepOp s op).1 rest = true := by
      simpa [validOps, Bool.and_eq_true] using hv
    obtain ⟨hwf1, heq1⟩ := stepOp_spec s op hwf hv'.1
    obtain ⟨hwf2, heq2⟩ := ih (stepOp s op).1 hwf1 hv'.2
    refine ⟨hwf2, ?_⟩
    show ((stepOp s op).2 ++ (runOps (stepOp s op).1 rest).2)
        ++ liveData (runOps (stepOp s op).1 rest).1
      = liveData s ++ writtenOf (op :: rest)
    rw [List.append_assoc, heq2, ← List.append_assoc, heq1, writtenOf_cons,
      List.append_assoc]
    simp [writtenOf]
    exact (writtenOf_cons op rest).symm

/-! ### The claims -/

/-- Claim C2: for every state of the view, `IsFull()` returns true if and
only if `head == 0` and `tail == capacity`; in particular, in any state
with `head > 0` and `tail == capacity`, `IsFull()` returns false. -/
theorem C2_isFull_spec (s : ForeignFifoBuffer T) :
    (IsFull s = true ↔ s.head = 0 ∧ s.tail = s.capacity)
    ∧ (0 < s.head → s.tail = s.capacity → IsFull s = false) := by
  constructor
  · simp [IsFull]
  · intro h1 h2
    simp only [IsFull, Bool.and_eq_false_iff, beq_eq_false_iff_ne, ne_eq]
    left
    omega

/-- Witness for C2 at a concrete state with `head > 0`, `tail = capacity`. -/
theorem C2_isFull_spec_witness :
    IsFull (⟨2, 4, 4, some [10, 20, 30, 40]⟩ : ForeignFifoBuffer Nat)
      = false :=
  (C2_isFull_spec _).2 (by decide) (by decide)

/-- Claim C8 (counterexample): `SetBuffer` also violates its precondition
check when called with a non-null handle and zero capacity
(`assert(_capacity > 0)` fails), so the precondition is not violated
"exactly when called with a null handle and nonzero capacity". -/
theorem C8_setBufferPre_counterexample :
    ¬ SetBufferPre (some [(42 : Nat)]) 0
    ∧ ¬ ((some [(42 : Nat)] : Option (List Nat)) = none ∧ 0 < (0 : Nat)) := by
  decide

/-- Claim C8 (amended): `SetBuffer` violates its precondition check exactly
when called with a null handle or zero capacity; every other call succeeds,
installs the new handle and capacity, and resets `head = tail = 0`, so that
`GetAvailable()` is 0 regardless of prior state. -/
theorem C8_SetBuffer_spec (s : ForeignFifoBuffer T) (d : Option (List T))
    (cap : Nat) :
    (¬ SetBufferPre d cap ↔ d = none ∨ cap = 0)
    ∧ (SetBuffer s d cap).data = d
    ∧ (SetBuffer s d cap).capacity = cap
    ∧ (SetBuffer s d cap).head = 0
    ∧ (SetBuffer s d cap).tail = 0
    ∧ GetAvailable (SetBuffer s d cap) = 0 := by
  refine ⟨?_, rfl, rfl, rfl, rfl, rfl⟩
  rw [SetBufferPre]
  constructor
  · intro h
    by_cases hd : d = none
    · exact Or.inl hd
    · right
      by_contra hc
      exact h ⟨hd, Nat.pos_of_ne_zero hc⟩
  · rintro (hd | hc) ⟨h1, h2⟩
    · exact h1 hd
    · omega

/-- Witness for C8 at a concrete rebinding call. -/
theorem C8_SetBuffer_spec_witness :
    GetAvailable (SetBuffer (⟨1, 3, 4, some [5, 6, 7, 8]⟩ :
      ForeignFifoBuffer Nat) (some [9]) 1) = 0 :=
  (C8_SetBuffer_spec _ (some [9]) 1).2.2.2.2.2

/-- Claim C9: for every view in the null state (constructed from `nullptr`,
after `SetNull()`, or after being moved from), `IsFull()` returns true while
`IsEmpty()` also returns true and `GetAvailable()` is 0, because
`head = tail = capacity = 0` satisfies `head == 0 && tail == capacity`. -/
theorem C9_null_state_queries (s : ForeignFifoBuffer T) :
    IsFull (ofNullptr T) = true
    ∧ IsEmpty (ofNullptr T) = true
    ∧ GetAvailable (ofNullptr T) = 0
    ∧ (ofNullptr T).head = 0 ∧ (ofNullptr T).tail = 0
      ∧ (ofNullptr T).capacity = 0
    ∧ SetNull s = ofNullptr T
    ∧ (moveFrom s).2 = ofNullptr T
    ∧ IsFull (SetNull s) = true ∧ IsFull (moveFrom s).2 = true :=
  ⟨rfl, rfl, rfl, rfl, rfl, rfl, rfl, rfl, rfl, rfl⟩

/-- Claim C10: move-assigning a view from itself leaves the view in the
null state with `head = tail = capacity = 0` and a null data handle,
discarding the prior binding and any live data, because the assignment
copies the source fields and then nulls the source unconditionally. -/
theorem C10_self_move_assign (s : ForeignFifoBuffer T) :
    moveAssignSelf s = ofNullptr T
    ∧ IsNull (moveAssignSelf s) = true
    ∧ (moveAssignSelf s).head = 0
    ∧ (moveAssignSelf s).tail = 0
    ∧ (moveAssignSelf s).capacity = 0 :=
  ⟨rfl, rfl, rfl, rfl, rfl⟩

/-- Claim C3 (counterexample): the claimed characterisation fails for
counts that make the `size_t` sum `tail + n` wrap modulo `2 ^ 64`: in the
state `head = 0`, `tail = capacity = 4`, with `n = 2 ^ 64 - 4`, the
wrapped test `tail + n <= capacity` sees `0 <= 4`, so `WantWrite` returns
true with no shift, although `n > capacity - available()` holds and the
claimed iff therefore requires false. -/
theorem C3_wantWrite_wrap_counterexample :
    (WantWrite (⟨0, 4, 4, some [1, 2, 3, 4]⟩ : ForeignFifoBuffer Nat)
        (2 ^ 64 - 4)).2 = true
    ∧ Inv (⟨0, 4, 4, some [1, 2, 3, 4]⟩ : ForeignFifoBuffer Nat)
    ∧ (⟨0, 4, 4, some [1, 2, 3, 4]⟩ : ForeignFifoBuffer Nat).capacity
        - GetAvailable (⟨0, 4, 4, some [1, 2, 3, 4]⟩ : ForeignFifoBuffer Nat)
      < 2 ^ 64 - 4 := by
  decide

/-- Claim C3 (amended): for every view state satisfying the cursor
invariant and every count `n` for which the `size_t` sum `tail + n` does
not wrap modulo `2 ^ 64`, `WantWrite(n)` returns false if and only if
`n > capacity - available()`; when `tail + n <= capacity` already holds it
returns true with no state change; otherwise, when the data still fits
after compaction, it shifts the live region as a side effect and returns
true; and after any true return `tail + n <= capacity` holds. -/
theorem C3_WantWrite_spec (s : ForeignFifoBuffer T) (n : Nat) (h : Inv s)
    (hw : s.tail + n < sizeModulus) :
    ((WantWrite s n).2 = false ↔ s.capacity - GetAvailable s < n)
    ∧ (s.tail + n ≤ s.capacity → WantWrite s n = (s, true))
    ∧ (¬ s.tail + n ≤ s.capacity → GetAvailable s + n ≤ s.capacity →
        WantWrite s n = (Shift s, true))
    ∧ ((WantWrite s n).2 = true → (WantWrite s n).1.tail + n ≤ s.capacity) := by
  have h1 : s.head ≤ s.tail := h.1
  have h2 : s.tail ≤ s.capacity := h.2
  have hst := Shift_tail s
  have hm1 : (s.tail + n) % sizeModulus = s.tail + n :=
    Nat.mod_eq_of_lt hw
  have hm2 : (s.tail - s.head + n) % sizeModulus = s.tail - s.head + n :=
    Nat.mod_eq_of_lt (lt_of_le_of_lt (by omega) hw)
  unfold WantWrite
  dsimp only
  rw [hm1, hm2]
  refine ⟨?_, ?_, ?_, ?_⟩
  · split
    · rename_i hc
      simp only [Bool.true_eq_false, false_iff, GetAvailable]
      omega
    · rename_i hc
      split
      · rename_i hc2
        simp only [GetAvailable, eq_self_iff_true, true_iff]
        omega
      · rename_i hc2
        simp only [Bool.true_eq_false, false_iff, GetAvailable]
        omega
  · intro hc
    rw [if_pos hc]
  · intro hc hc2
    rw [if_neg hc, if_neg (by simp only [GetAvailable] at hc2; omega)]
  · split
    · rename_i hc
      intro
      exact hc
    · split
      · rename_i hc2
        intro hb
        exact absurd hb (by simp)
      · rename_i hc2
        intro
        show (Shift s).tail + n ≤ s.capacity
        omega

/-- Witness for C3: a non-wrapping `WantWrite` call that triggers
compaction. -/
theorem C3_WantWrite_spec_witness :
    WantWrite (⟨2, 4, 4, some [1, 2, 3, 4]⟩ : ForeignFifoBuffer Nat) 2
      = (Shift (⟨2, 4, 4, some [1, 2, 3, 4]⟩ : ForeignFifoBuffer Nat), true) :=
  (C3_WantWrite_spec _ 2 (by decide) (by decide)).2.2.1 (by decide) (by decide)

/-- Claim C4 (counterexample): compaction does change element values at
indices outside the old `[head, tail)` range.  In the well-formed state
`head = 1, tail = 2, capacity = 2` over the block `[10, 20]`, index `0`
lies outside `[1, 2)`, yet `Shift` overwrites it (the block becomes
`[20, 20]`). -/
theorem C4_shift_frame_counterexample :
    Wf (⟨1, 2, 2, some [10, 20]⟩ : ForeignFifoBuffer Nat)
    ∧ ¬ ((⟨1, 2, 2, some [10, 20]⟩ : ForeignFifoBuffer Nat).head ≤ 0
          ∧ 0 < (⟨1, 2, 2, some [10, 20]⟩ : ForeignFifoBuffer Nat).tail)
    ∧ bufAt (Shift (⟨1, 2, 2, some [10, 20]⟩ : ForeignFifoBuffer Nat)) 0
        ≠ bufAt (⟨1, 2, 2, some [10, 20]⟩ : ForeignFifoBuffer Nat) 0 := by
  decide

/-- Claim C4 (amended): compaction (`Shift`) is a no-op when `head == 0`;
otherwise it moves the live range `[head, tail)` to start at index 0
preserving element order, sets `head = 0` and `tail = old tail - old head`,
preserves `available()` and the live element sequence exactly, and never
changes element values at indices at or beyond the old `available()`
(the end of the new live range), i.e. outside `[0, old tail - old head)`. -/
theorem C4_shift_spec (s : ForeignFifoBuffer T) (hwf : Wf s) :
    (s.head = 0 → Shift s = s)
    ∧ (Shift s).head = 0
    ∧ (Shift s).tail = s.tail - s.head
    ∧ (Shift s).capacity = s.capacity
    ∧ GetAvailable (Shift s) = GetAvailable s
    ∧ liveData (Shift s) = liveData s
    ∧ ∀ i, GetAvailable s ≤ i → bufAt (Shift s) i = bufAt s i := by
  refine ⟨?_, Shift_head s, Shift_tail s, Shift_capacity s, ?_,
    liveData_Shift s hwf, ?_⟩
  · intro hh
    unfold Shift
    exact if_pos hh
  · show (Shift s).tail - (Shift s).head = s.tail - s.head
    rw [Shift_tail, Shift_head]
    omega
  · intro i hi
    exact bufAt_Shift s hwf i hi

/-- Witness for C4 at a concrete well-formed state. -/
theorem C4_shift_spec_witness :
    liveData (Shift (⟨1, 3, 4, some [5, 6, 7, 8]⟩ : ForeignFifoBuffer Nat))
      = liveData (⟨1, 3, 4, some [5, 6, 7, 8]⟩ : ForeignFifoBuffer Nat) :=
  (C4_shift_spec _ (by decide)).2.2.2.2.2.1

theorem Inv_Shift (s : ForeignFifoBuffer T) (h : Inv s) : Inv (Shift s) := by
  have h1 := h.1
  have h2 := h.2
  refine ⟨?_, ?_⟩
  · rw [Shift_head]
    exact Nat.zero_le _
  · rw [Shift_tail, Shift_capacity]
    omega

/-- Claim C5: after every public operation, provided each operation's
documented precondition held when it was called (`Append` only with
`tail + n <= capacity`, `Consume` only with `head + n <= tail`,
`MoveBuffer` only with `new_capacity >= available`), the cursor invariant
`0 <= head <= tail <= capacity` holds. -/
theorem C5_cursor_invariant (s : ForeignFifoBuffer T) (h : Inv s) :
    Inv (ofNullptr T)
    ∧ (∀ (d : Option (List T)) (cap : Nat), Inv (ofBuffer d cap))
    ∧ Inv (SetNull s)
    ∧ (∀ (d : Option (List T)) (cap : Nat), Inv (SetBuffer s d cap))
    ∧ (∀ (nd : Option (List T)) (ncap : Nat), MoveBufferPre s ncap →
        Inv (MoveBuffer s nd ncap))
    ∧ Inv (Clear s)
    ∧ Inv (Write s).1
    ∧ (∀ n, Inv (WantWrite s n).1)
    ∧ (∀ n, AppendPre s n → Inv (Append s n))
    ∧ (∀ n, ConsumePre s n → Inv (Consume s n))
    ∧ (∀ n, Inv (ReadCopy s n).2.2)
    ∧ Inv (moveFrom s).1 ∧ Inv (moveFrom s).2 := by
  have h1 := h.1
  have h2 := h.2
  refine ⟨⟨Nat.le_refl 0, Nat.zero_le 0⟩, fun d cap => ⟨Nat.le_refl 0, Nat.zero_le cap⟩,
    ⟨Nat.le_refl 0, Nat.zero_le 0⟩, fun d cap => ⟨Nat.le_refl 0, Nat.zero_le cap⟩,
    ?_, ⟨Nat.le_refl 0, Nat.zero_le _⟩, Inv_Shift s h, ?_, ?_, ?_, ?_, h,
    ⟨Nat.le_refl 0, Nat.zero_le 0⟩⟩
  · intro nd ncap hpre
    exact ⟨Nat.zero_le _, hpre⟩
  · intro n
    unfold WantWrite
    split
    · exact h
    · dsimp only
      split
      · exact h
      · exact Inv_Shift s h
  · intro n hp
    refine ⟨?_, hp.2.2⟩
    show s.head ≤ s.tail + n
    omega
  · intro n hp
    refine ⟨hp.2.2.2, h2⟩
  · intro n
    refine ⟨?_, h2⟩
    show s.head + (if s.tail - s.head < n then s.tail - s.head else n) ≤ s.tail
    split <;> omega

/-- Witness for C5 at a concrete state: the invariant after `Write()`. -/
theorem C5_cursor_invariant_witness :
    Inv (Write (⟨2, 4, 4, some [1, 2, 3, 4]⟩ : ForeignFifoBuffer Nat)).1 :=
  (C5_cursor_invariant _ (by decide)).2.2.2.2.2.2.1

/-- Claim C6 (counterexample): two reachable violations of the claimed
invariant.  The two-argument constructor has no assertion, so constructing
a view from a null handle and capacity 5 yields a view whose data handle
is null while its capacity is nonzero.  Likewise, on an empty bound view,
`MoveBuffer(nullptr, 5)` passes its only assertion
(`new_capacity >= tail - head`, i.e. `5 >= 0`), moves no elements, and
leaves a null data handle with capacity 5. -/
theorem C6_null_binding_counterexample :
    (IsNull (ofBuffer (none : Option (List Nat)) 5) = true
      ∧ GetCapacity (ofBuffer (none : Option (List Nat)) 5) ≠ 0)
    ∧ (MoveBufferPre (ofBuffer (some [(1 : Nat), 2]) 2) 5
      ∧ IsNull (MoveBuffer (ofBuffer (some [(1 : Nat), 2]) 2) none 5) = true
      ∧ GetCapacity (MoveBuffer (ofBuffer (some [(1 : Nat), 2]) 2) none 5)
          ≠ 0) := by
  decide

theorem NullOk_Shift (s : ForeignFifoBuffer T) (h : NullOk s) :
    NullOk (Shift s) := by
  intro hd
  by_cases hh : s.head = 0
  · have hs : Shift s = s := by
      unfold Shift
      exact if_pos hh
    rw [hs] at hd ⊢
    exact h hd
  · exfalso
    unfold Shift at hd
    rw [if_neg hh] at hd
    dsimp only at hd
    simp only [Option.map_eq_none'] at hd
    exact hh (h hd).1

/-- Claim C6 (amended): after any construction or public operation,
provided the two-argument constructor and `MoveBuffer` are only called
with non-null handles (neither asserts this itself) and each operation's
asserted precondition held, the view has a null data handle only in the
null state with `capacity = head = tail = 0`; no such reachable view has
a null data handle together with a nonzero capacity, head, or tail. -/
theorem C6_null_state_invariant (s : ForeignFifoBuffer T) (h : NullOk s) :
    NullOk (ofNullptr T)
    ∧ (∀ (buf : List T) (cap : Nat), NullOk (ofBuffer (some buf) cap))
    ∧ NullOk (SetNull s)
    ∧ (∀ (d : Option (List T)) (cap : Nat), SetBufferPre d cap →
        NullOk (SetBuffer s d cap))
    ∧ (∀ (nd : List T) (ncap : Nat), NullOk (MoveBuffer s (some nd) ncap))
    ∧ NullOk (Clear s)
    ∧ NullOk (Write s).1
    ∧ (∀ n, NullOk (WantWrite s n).1)
    ∧ (∀ n, AppendPre s n → NullOk (Append s n))
    ∧ (∀ n, ConsumePre s n → NullOk (Consume s n))
    ∧ (∀ n, NullOk (ReadCopy s n).2.2)
    ∧ NullOk (moveFrom s).1 ∧ NullOk (moveFrom s).2 := by
  refine ⟨fun _ => ⟨rfl, rfl, rfl⟩, ?_, fun _ => ⟨rfl, rfl, rfl⟩, ?_, ?_, ?_,
    NullOk_Shift s h, ?_, ?_, ?_, ?_, h, fun _ => ⟨rfl, rfl, rfl⟩⟩
  · intro buf cap hd
    exact Option.noConfusion hd
  · intro d cap hp hd
    exact absurd hd hp.1
  · intro nd ncap hd
    exact Option.noConfusion hd
  · intro hd
    obtain ⟨e1, e2, e3⟩ := h hd
    exact ⟨rfl, rfl, e3⟩
  · intro n
    unfold WantWrite
    split
    · exact h
    · dsimp only
      split
      · exact h
      · exact NullOk_Shift s h
  · intro n hp hd
    obtain ⟨e1, e2, e3⟩ := h hd
    have h3 := hp.2.2
    refine ⟨e1, ?_, e3⟩
    show s.tail + n = 0
    omega
  · intro n hp hd
    obtain ⟨e1, e2, e3⟩ := h hd
    have h4 := hp.2.2.2
    refine ⟨?_, e2, e3⟩
    show s.head + n = 0
    omega
  · intro n hd
    have hd' : s.data = none := hd
    obtain ⟨e1, e2, e3⟩ := h hd'
    refine ⟨?_, e2, e3⟩
    show s.head + (if s.tail - s.head < n then s.tail - s.head else n) = 0
    rw [e1, e2]
    split <;> omega

/-- Witness for C6: the null-state invariant after `Write()` on the null
view. -/
theorem C6_null_state_invariant_witness :
    NullOk (Write (ofNullptr Nat)).1 :=
  (C6_null_state_invariant (ofNullptr Nat) (by decide)).2.2.2.2.2.2.1

/-- Claim C7: `MoveBuffer` (relocation) has the precondition that the new
capacity is at least the current live length `available()`; when that
holds (and the new block really has the new capacity), it copies the live
elements in order to the front of the new block, rebinds `data` to the new
block with the new capacity, and sets `head = 0` and
`tail = old available()`, so `available()` and element order are
preserved. -/
theorem C7_MoveBuffer_spec (s : ForeignFifoBuffer T) (nd : List T)
    (ncap : Nat) (hwf : Wf s) (hnd : nd.length = ncap)
    (hpre : MoveBufferPre s ncap) :
    (MoveBuffer s (some nd) ncap).head = 0
    ∧ (MoveBuffer s (some nd) ncap).tail = GetAvailable s
    ∧ (MoveBuffer s (some nd) ncap).capacity = ncap
    ∧ (MoveBuffer s (some nd) ncap).data
        = some (liveData s ++ nd.drop (GetAvailable s))
    ∧ GetAvailable (MoveBuffer s (some nd) ncap) = GetAvailable s
    ∧ liveData (MoveBuffer s (some nd) ncap) = liveData s
    ∧ Wf (MoveBuffer s (some nd) ncap) := by
  obtain ⟨buf, hd, hl⟩ := hwf.exists_buf
  have h1 : s.head ≤ s.tail := hwf.1
  have h2 : s.tail ≤ s.capacity := hwf.2.1
  have hlen := liveData_length s hwf
  have hpre' : s.tail - s.head ≤ ncap := hpre
  have hdata : (MoveBuffer s (some nd) ncap).data
      = some (liveData s ++ nd.drop (GetAvailable s)) := by
    show some (setRange nd 0
        (((s.data.getD []).drop s.head).take (s.tail - s.head))) = _
    rw [← liveData_eq]
    simp only [setRange, List.take_zero, List.nil_append, Nat.zero_add, hlen]
    rfl
  have hhead : (MoveBuffer s (some nd) ncap).head = 0 := rfl
  have htail : (MoveBuffer s (some nd) ncap).tail = GetAvailable s := rfl
  have hcap : (MoveBuffer s (some nd) ncap).capacity = ncap := rfl
  have hga : GetAvailable (MoveBuffer s (some nd) ncap) = GetAvailable s := by
    show (MoveBuffer s (some nd) ncap).tail - (MoveBuffer s (some nd) ncap).head = _
    rw [htail, hhead]
    omega
  have hlive : liveData (MoveBuffer s (some nd) ncap) = liveData s := by
    rw [liveData_eq, hdata, hhead, htail]
    simp only [Option.getD_some, List.drop_zero, Nat.sub_zero]
    exact List.take_left' (by rw [hlen]; rfl)
  refine ⟨hhead, htail, hcap, hdata, hga, hlive, ?_, ?_, ?_⟩
  · rw [hhead]
    exact Nat.zero_le _
  · rw [htail, hcap]
    exact hpre
  · rw [hdata, hcap]
    simp only [Option.map_some', List.length_append, List.length_drop,
      GetAvailable]
    rw [hlen]
    congr 1
    omega

/-- Witness for C7 at a concrete relocation to a larger block. -/
theorem C7_MoveBuffer_spec_witness :
    liveData (MoveBuffer (⟨1, 3, 4, some [5, 6, 7, 8]⟩ :
        ForeignFifoBuffer Nat) (some [0, 0, 0, 0, 0]) 5)
      = liveData (⟨1, 3, 4, some [5, 6, 7, 8]⟩ : ForeignFifoBuffer Nat) :=
  (C7_MoveBuffer_spec _ [0, 0, 0, 0, 0] 5 (by decide) (by decide)
    (by decide)).2.2.2.2.2.1

/-- Claim C1: for every sequence of operations on one binding in which each
write is performed into the range returned by `Write()` and committed with
`Append(n)` without exceeding the range, and each `Consume(n)`/`Read(p,n)`
stays within the available count, the elements observed through
`Read()`/`Read(p,n)` are exactly the elements that were written, in the
order they were written (FIFO order preservation), across any interleaving
with automatic shifts: the observed output followed by the still-unread
live data equals the full written sequence. -/
theorem C1_fifo_order (buf : List T) (ops : List (FifoOp T))
    (hv : validOps (ofList buf) ops = true) :
    (runOps (ofList buf) ops).2 ++ liveData (runOps (ofList buf) ops).1
      = writtenOf ops := by
  have hwf : Wf (ofList buf) := ⟨Nat.le_refl 0, Nat.zero_le _, rfl⟩
  exact (runOps_spec ops (ofList buf) hwf hv).2

/-- Witness for C1: a concrete trace with an interleaved shift whose
observed output is exactly the written sequence. -/
theorem C1_fifo_order_witness :
    validOps (ofList [0, 0, 0, 0])
        [FifoOp.write [1, 2, 3], FifoOp.consume 2, FifoOp.write [7, 8, 9],
          FifoOp.readCopy 4] = true
    ∧ (runOps (ofList [0, 0, 0, 0])
          [FifoOp.write [1, 2, 3], FifoOp.consume 2, FifoOp.write [7, 8, 9],
            FifoOp.readCopy 4]).2
        ++ liveData (runOps (ofList [0, 0, 0, 0])
            [FifoOp.write [1, 2, 3], FifoOp.consume 2, FifoOp.write [7, 8, 9],
              FifoOp.readCopy 4]).1
      = writtenOf [FifoOp.write [1, 2, 3], FifoOp.consume 2,
          FifoOp.write [7, 8, 9], FifoOp.readCopy 4] :=
  ⟨by decide, C1_fifo_order _ _ (by decide)⟩

end MPDFifo
